import Mathlib

/-!
Verification of the SAP-1 virtual machine repository (src/SAP1.py and
src/sap1_playground.py) against its specification.

Modelling conventions:
* Python integers are unbounded, so registers and memory cells are `Int`.
* Python `x & 0xFF` on an arbitrary int equals the mathematical residue
  `x % 256`; Lean's `%` on `Int` is Euclidean mod (non-negative for a
  positive modulus), so `x % 256` is a faithful translation.  Likewise
  `x & 0xF` is `x % 16`, and `(x >> 4) & 0xF` (arithmetic shift = floor
  division) is `(x / 16) % 16` with Lean's `/` = `Int.ediv` (floor for a
  positive divisor).
* Python strings are modelled as `List Char` and the handful of `str`
  methods the source uses (`strip`, `split`, `upper`, ...) are defined
  below on `List Char`, restricted to the ASCII inputs the programs use.
* A Python method that mutates `self` becomes a function from the state
  record to a new state record; a method that can raise becomes a
  function into a sum/inductive carrying the exception's payload.
* `print` side effects carry no state and are not modelled; the trace
  strings returned by `step` are modelled structurally (the register
  values and instruction that would be interpolated into the f-string)
  rather than as formatted text.
-/

namespace SAP1VM

/-- `u8` from SAP1.py: `x & 0xFF`, i.e. the residue of `x` modulo 256. -/
def u8 (x : Int) : Int := x % 256

/-- `u4` from SAP1.py: `x & 0xF`, i.e. the residue of `x` modulo 16. -/
def u4 (x : Int) : Int := x % 16

/-- `self.memory[i]` for an index that the source has already masked with
`u4` (so `0 ≤ i < 16`, in bounds for the 16-cell memory list; the default
is never consulted on the states the program builds). -/
def memRead (m : List Int) (i : Int) : Int := m.getD i.toNat 0

/-- CPU state: the fields of the `SAP1` dataclass in SAP1.py. -/
structure CPU where
  memory : List Int
  A : Int
  B : Int
  OUT : Int
  IR : Int
  PC : Int
  MAR : Int
  halted : Bool
  t_state : Int
  trace_instructions : Bool
  trace_microsteps : Bool
deriving DecidableEq, Repr

/-- A freshly constructed `SAP1()`: memory zeroed, registers zero,
`trace_instructions=True`, `trace_microsteps=False`. -/
def CPU.fresh : CPU :=
  ⟨List.replicate 16 0, 0, 0, 0, 0, 0, 0, false, 0, true, false⟩

/-- `SAP1.reset`: clears every register, `halted` and `t_state`, leaving
memory and the two tracing flags untouched. -/
def reset (s : CPU) : CPU :=
  { s with A := 0, B := 0, OUT := 0, IR := 0, PC := 0, MAR := 0,
           halted := false, t_state := 0 }

/-- `SAP1.load_program`: for each `(addr, byte)` pair, writes `u8 byte`
into `memory[u4 addr]`. -/
def load_program (s : CPU) (ps : List (Int × Int)) : CPU :=
  ps.foldl
    (fun c p => { c with memory := c.memory.set (u4 p.1).toNat (u8 p.2) }) s

/-- `SAP1._fetch_cycle`: `MAR ← u4 PC`; `IR ← u8 memory[MAR]`;
`PC ← u4 (PC+1)`; `t_state` ends at 2 (the microstep prints are I/O
only). -/
def fetch_cycle (s : CPU) : CPU :=
  let s1 := { s with MAR := u4 s.PC, t_state := 1 }
  let s2 := { s1 with IR := u8 (memRead s1.memory s1.MAR) }
  { s2 with PC := u4 (s2.PC + 1), t_state := 2 }

/-- `SAP1._decode`: opcode = `(IR >> 4) & 0xF`, addr = `IR & 0xF`;
sets `t_state` to 3 and returns the pair. -/
def decode (s : CPU) : CPU × Int × Int :=
  ({ s with t_state := 3 }, (s.IR / 16) % 16, s.IR % 16)

/-- `SAP1._exec_LDA`. -/
def exec_LDA (s : CPU) (addr : Int) : CPU :=
  let s1 := { s with MAR := u4 addr }
  { s1 with A := u8 (memRead s1.memory s1.MAR), t_state := 0 }

/-- `SAP1._exec_ADD`. -/
def exec_ADD (s : CPU) (addr : Int) : CPU :=
  let s1 := { s with MAR := u4 addr }
  let s2 := { s1 with B := u8 (memRead s1.memory s1.MAR) }
  { s2 with A := u8 (s2.A + s2.B), t_state := 0 }

/-- `SAP1._exec_SUB`. -/
def exec_SUB (s : CPU) (addr : Int) : CPU :=
  let s1 := { s with MAR := u4 addr }
  let s2 := { s1 with B := u8 (memRead s1.memory s1.MAR) }
  { s2 with A := u8 (s2.A - s2.B), t_state := 0 }

/-- `SAP1._exec_STA`. -/
def exec_STA (s : CPU) (addr : Int) : CPU :=
  let s1 := { s with MAR := u4 addr }
  { s1 with memory := s1.memory.set s1.MAR.toNat (u8 s1.A), t_state := 0 }

/-- `SAP1._exec_OUT`. -/
def exec_OUT (s : CPU) : CPU :=
  { s with OUT := u8 s.A, t_state := 0 }

/-- `SAP1._exec_HLT`. -/
def exec_HLT (s : CPU) : CPU :=
  { s with halted := true, t_state := 0 }

/-- The data interpolated into the per-instruction trace message
(`trace_msg` in `SAP1.step`), built before the execute phase. -/
inductive TraceMsg where
  | LDA (addr : Int)
  | ADD (addr : Int)
  | SUB (addr : Int)
  | STA (addr : Int)
  | OUT (a : Int)
  | HLT
deriving DecidableEq, Repr

/-- The data interpolated into the string `step` returns when
`trace_instructions` is set: `PC`, `IR`, `A`, `B`, `OUT` after the
execute phase, plus the instruction message. -/
structure TraceLine where
  pc : Int
  ir : Int
  a : Int
  b : Int
  out : Int
  msg : TraceMsg
deriving DecidableEq, Repr

/-- Result of one `SAP1.step()` call.  `noInstr s` is the early
`return None` taken when the machine is already halted (no mutation:
the carried state is the input state).  `ok s t` is a normal return
with the mutated state and the optional trace line.  `decodeError op ir s`
is the `raise ValueError` branch for an unknown opcode, carrying the
offending opcode nibble and the full IR byte that the message
interpolates, and the state at the moment of the raise (fetch and
decode have already run). -/
inductive StepResult where
  | noInstr (s : CPU)
  | ok (s : CPU) (t : Option TraceLine)
  | decodeError (opcode ir : Int) (s : CPU)
deriving DecidableEq, Repr

/-- The trace string returned by a successful `step` (post-execute
register values), or `none` when `trace_instructions` is off. -/
def mkTrace (s : CPU) (m : TraceMsg) : Option TraceLine :=
  if s.trace_instructions then some ⟨s.PC, s.IR, s.A, s.B, s.OUT, m⟩ else none

/-- `SAP1.step`: early-out when halted; otherwise fetch, decode, and
dispatch on the opcode nibble, raising on an unknown opcode. -/
def step (s : CPU) : StepResult :=
  if s.halted then .noInstr s
  else
    let d := decode (fetch_cycle s)
    let s2 := d.1
    let opcode := d.2.1
    let addr := d.2.2
    if opcode = 0x1 then
      let s3 := exec_LDA s2 addr
      .ok s3 (mkTrace s3 (.LDA addr))
    else if opcode = 0x2 then
      let s3 := exec_ADD s2 addr
      .ok s3 (mkTrace s3 (.ADD addr))
    else if opcode = 0x3 then
      let s3 := exec_SUB s2 addr
      .ok s3 (mkTrace s3 (.SUB addr))
    else if opcode = 0x4 then
      let s3 := exec_STA s2 addr
      .ok s3 (mkTrace s3 (.STA addr))
    else if opcode = 0xE then
      let s3 := exec_OUT s2
      .ok s3 (mkTrace s3 (.OUT s2.A))
    else if opcode = 0xF then
      let s3 := exec_HLT s2
      .ok s3 (mkTrace s3 .HLT)
    else
      .decodeError opcode s2.IR s2

/-- Result of `SAP1.run`: normal loop exit with final state and collected
trace, or a `ValueError` propagating out of `step` (the local trace list
is lost in that case, as in the source). -/
inductive RunResult where
  | ok (s : CPU) (trace : List TraceLine)
  | decodeError (opcode ir : Int) (s : CPU)
deriving DecidableEq, Repr

/-- The `while not self.halted and steps < max_steps` loop of `SAP1.run`,
with `fuel` the number of remaining permitted steps and `acc` the trace
lines collected so far (reversed). -/
def runAux : CPU → Nat → List TraceLine → RunResult
  | s, 0, acc => .ok s acc.reverse
  | s, n + 1, acc =>
    if s.halted then .ok s acc.reverse
    else
      match step s with
      | .noInstr s' => runAux s' n acc
      | .ok s' none => runAux s' n acc
      | .ok s' (some t) => runAux s' n (t :: acc)
      | .decodeError op ir se => .decodeError op ir se

/-- `SAP1.run(max_steps)`; the source default is `max_steps = 1000`. -/
def run (s : CPU) (max_steps : Nat) : RunResult := runAux s max_steps []

/-! ### Python string primitives (on `List Char`, ASCII inputs) -/

/-- Python `str.strip()` (ASCII whitespace). -/
def pyStrip (l : List Char) : List Char :=
  ((l.dropWhile Char.isWhitespace).reverse.dropWhile Char.isWhitespace).reverse

/-- Worker for `pySplitWs`, structurally recursive on a fuel that is an
upper bound on the list length (each recursive call strictly shrinks
the list, so `l.length` fuel is always enough). -/
def pySplitWsAux : Nat → List Char → List (List Char)
  | 0, _ => []
  | _ + 1, [] => []
  | n + 1, c :: cs =>
    if Char.isWhitespace c then pySplitWsAux n cs
    else
      (c :: cs.takeWhile (fun x => ¬ Char.isWhitespace x)) ::
        pySplitWsAux n (cs.dropWhile (fun x => ¬ Char.isWhitespace x))

/-- Python `s.split()`: split on runs of whitespace, discarding empty
tokens. -/
def pySplitWs (l : List Char) : List (List Char) := pySplitWsAux l.length l

/-- Python `s.split(sep)` for a one-character separator: split on every
occurrence, keeping empty pieces. -/
def pySplitOn (sep : Char) (l : List Char) : List (List Char) :=
  l.foldr
    (fun c acc =>
      if c = sep then [] :: acc
      else
        match acc with
        | [] => [[c]]
        | t :: ts => (c :: t) :: ts)
    [[]]

/-- Python `str.upper()` on one ASCII character. -/
def pyUpperChar (c : Char) : Char :=
  if 'a' ≤ c ∧ c ≤ 'z' then Char.ofNat (c.toNat - 32) else c

/-- Python `str.upper()` (ASCII). -/
def pyUpper (l : List Char) : List Char := l.map pyUpperChar

/-- Python `str.replace(",", " ")` specialised to single characters. -/
def pyReplaceChar (old new : Char) (l : List Char) : List Char :=
  l.map (fun c => if c = old then new else c)

/-- Python `str(i)` for an int: decimal digits with a leading minus sign
for negatives. -/
def pyStr (i : Int) : List Char :=
  if i < 0 then '-' :: Nat.toDigits 10 (-i).toNat
  else Nat.toDigits 10 i.toNat

/-- Value of one character as a digit (0-9, a-f, A-F), as accepted by
Python `int` parsing. -/
def digitVal (c : Char) : Option Nat :=
  if '0' ≤ c ∧ c ≤ '9' then some (c.toNat - '0'.toNat)
  else if 'a' ≤ c ∧ c ≤ 'f' then some (c.toNat - 'a'.toNat + 10)
  else if 'A' ≤ c ∧ c ≤ 'F' then some (c.toNat - 'A'.toNat + 10)
  else none

/-- Digits of `base` with single underscores allowed between digits (and
before the first digit, as after a base prefix), accumulating onto `acc`.
Empty input returns `acc`: callers guard against an empty digit string. -/
def parseDigitsAux (base : Nat) : List Char → Nat → Option Nat
  | [], acc => some acc
  | '_' :: c :: rest, acc =>
    match digitVal c with
    | some d => if d < base then parseDigitsAux base rest (acc * base + d) else none
    | none => none
  | ['_'], _ => none
  | c :: rest, acc =>
    match digitVal c with
    | some d => if d < base then parseDigitsAux base rest (acc * base + d) else none
    | none => none

/-- A non-empty decimal digit string (underscores between digits); when
`leadingZeroOk` is false (Python's base-0 literal syntax), a first digit
`0` is only allowed when the value is 0. -/
def parseDec (leadingZeroOk : Bool) (l : List Char) : Option Nat :=
  match l with
  | [] => none
  | c :: rest =>
    match digitVal c with
    | some d =>
      if d < 10 then
        match parseDigitsAux 10 rest d with
        | some v => if leadingZeroOk ∨ c ≠ '0' ∨ v = 0 then some v else none
        | none => none
      else none
    | none => none

/-- Python `int(tok, 0)` on a whitespace-free token (the assembler only
ever passes tokens produced by `split()`): optional sign, then a `0x`,
`0o` or `0b` prefixed literal or a decimal literal without leading
zeros.  Returns `none` where Python raises `ValueError`. -/
def pyIntBase0 (tok : List Char) : Option Int :=
  let signed : Int × List Char :=
    match tok with
    | '+' :: r => (1, r)
    | '-' :: r => (-1, r)
    | r => (1, r)
  let body := signed.2
  let core : Option Nat :=
    match body with
    | '0' :: x :: r =>
      if x = 'x' ∨ x = 'X' then if r = [] then none else parseDigitsAux 16 r 0
      else if x = 'o' ∨ x = 'O' then if r = [] then none else parseDigitsAux 8 r 0
      else if x = 'b' ∨ x = 'B' then if r = [] then none else parseDigitsAux 2 r 0
      else parseDec false body
    | _ => parseDec false body
  core.map (fun v => signed.1 * (v : Int))

/-- Python `int(tok)` (base 10) on a whitespace-free token: optional
sign then decimal digits (leading zeros allowed). -/
def pyInt10 (tok : List Char) : Option Int :=
  match tok with
  | '+' :: r => (parseDec true r).map (fun v => (v : Int))
  | '-' :: r => (parseDec true r).map (fun v => -(v : Int))
  | r => (parseDec true r).map (fun v => (v : Int))

/-- Python `tok.isdigit()` for ASCII: non-empty and all characters are
decimal digits. -/
def pyIsDigit (tok : List Char) : Bool :=
  ¬ tok.isEmpty ∧ tok.all (fun c => '0' ≤ c ∧ c ≤ '9')

/-! ### The tiny assembler (SAP1.py `assemble`) -/

/-- The exceptions `assemble` can raise: its own `AsmError` (unknown
directive or mnemonic, carrying the offending head token), the
`ValueError` that `int(tok, 0)` raises on an unparseable literal
(carrying the token), and the `IndexError` from reading a missing
second token of a line. -/
inductive AsmException where
  | asmError (head : List Char)
  | valueError (tok : List Char)
  | indexError
deriving DecidableEq, Repr

/-- Dictionary lookup for string-keyed dicts modelled as association
lists where the most recent insertion is at the head. -/
def dictLookup (d : List (List Char × Int)) (k : List Char) : Option Int :=
  (d.find? (fun p => p.1 = k)).map Prod.snd

/-- The `OPCODES` table of SAP1.py. -/
def OPCODES : List (List Char × Int) :=
  [("LDA".data, 0x1), ("ADD".data, 0x2), ("SUB".data, 0x3),
   ("STA".data, 0x4), ("OUT".data, 0xE), ("HLT".data, 0xF)]

/-- The preprocessing loop of `assemble`: strip everything from the
first `;`, trim whitespace, drop empty lines. -/
def cleanLines (lines : List (List Char)) : List (List Char) :=
  lines.foldr
    (fun raw acc =>
      let line := pyStrip (raw.takeWhile (fun c => c ≠ ';'))
      if line = [] then acc else line :: acc)
    []

/-- Pass 1 of `assemble`: build the label table and the list of
(mnemonic, optional operand token) items, one item per
program-counter slot.  `labels` grows by prepending (later bindings
shadow earlier ones, like Python dict assignment); `items` is
accumulated reversed. -/
def pass1 :
    List (List Char) → List (List Char × Int) → Int →
    List (List Char × Option (List Char)) →
    Except AsmException (List (List Char × Int) × List (List Char × Option (List Char)))
  | [], labels, _, items => .ok (labels, items.reverse)
  | line :: rest, labels, pc, items =>
    if line.getLast? = some ':' then
      pass1 rest ((pyStrip line.dropLast, pc) :: labels) pc items
    else
      match pySplitWs (pyReplaceChar ',' ' ' line) with
      | [] => .error .indexError
      | w :: ws =>
        let head := pyUpper w
        if head = ".BYTE".data then
          match ws with
          | [] => .error .indexError
          | opnd :: _ => pass1 rest labels (pc + 1) ((head, some opnd) :: items)
        else
          match dictLookup OPCODES head with
          | some _ => pass1 rest labels (pc + 1) ((head, ws.head?) :: items)
          | none => .error (.asmError head)

/-- `parse_addr` from `assemble`: `None` means 0; a token that is a key
of the label table resolves to the label's address; otherwise the token
must parse as `int(tok, 0)`. -/
def parse_addr (labels : List (List Char × Int)) (tok : Option (List Char)) :
    Except AsmException Int :=
  match tok with
  | none => .ok 0
  | some t =>
    match dictLookup labels t with
    | some v => .ok v
    | none =>
      match pyIntBase0 t with
      | some v => .ok v
      | none => .error (.valueError t)

/-- Pass 2 of `assemble`: encode each item.  `.BYTE` emits the literal
masked to 8 bits; `OUT`/`HLT` emit `opcode << 4`; every other mnemonic
emits `(opcode & 0xF) << 4 | (addr & 0xF)` (the disjoint bit-or written
as addition). -/
def pass2 (labels : List (List Char × Int)) :
    List (List Char × Option (List Char)) → List Int → Except AsmException (List Int)
  | [], out => .ok out.reverse
  | (mnem, opnd) :: rest, out =>
    if mnem = ".BYTE".data then
      match opnd with
      | some t =>
        match pyIntBase0 t with
        | some v => pass2 labels rest ((v % 256) :: out)
        | none => .error (.valueError t)
      | none => .error .indexError
    else
      match dictLookup OPCODES mnem with
      | none => .error (.asmError mnem)
      | some opcode =>
        if mnem = "OUT".data ∨ mnem = "HLT".data then
          pass2 labels rest ((opcode * 16) :: out)
        else
          match parse_addr labels opnd with
          | .ok addr => pass2 labels rest (((opcode % 16) * 16 + addr % 16) :: out)
          | .error e => .error e

/-- `assemble` from SAP1.py: preprocessing, pass 1, pass 2. -/
def assemble (lines : List (List Char)) : Except AsmException (List Int) :=
  match pass1 (cleanLines lines) [] 0 [] with
  | .error e => .error e
  | .ok (labels, items) => pass2 labels items []

/-! ### The playground (src/sap1_playground.py) -/

namespace Playground

/-- The exceptions the playground can raise: `KeyError` from a dict
lookup of an unassigned variable (carrying the missing key),
`IndexError` from subscripting a too-short token list or the memory
list, `ValueError` from `int()` on an unparseable token, and the
`ValueError` Python raises when tuple unpacking gets the wrong number
of pieces. -/
inductive PyExc where
  | keyError (name : List Char)
  | indexError
  | valueError (tok : List Char)
  | valueErrorUnpack
deriving DecidableEq, Repr

/-- The statement-splitting of `compile_toy`:
`[line.strip() for line in source.split(";") if line.strip()]`. -/
def toyLines (source : List Char) : List (List Char) :=
  (pySplitOn ';' source).filterMap
    (fun l => let s := pyStrip l; if s = [] then none else some s)

/-- The body of `compile_toy`'s statement loop: threads the variable
table (head = most recent binding), the descending free-slot pointer
`mem_ptr`, and the emitted assembly lines (accumulated in reverse). -/
def compileLoop :
    List (List Char) → List (List Char × Int) → Int → List (List Char) →
    Except PyExc (List (List Char))
  | [], _, _, acc => .ok acc
  | line :: rest, vars, ptr, acc =>
    if "print".data.isPrefixOf line then
      match (pySplitWs line).drop 1 with
      | [] => .error .indexError
      | v :: _ =>
        match dictLookup vars v with
        | none => .error (.keyError v)
        | some addr =>
          compileLoop rest vars ptr
            (("    OUT".data) :: ("    LDA ".data ++ pyStr addr) :: acc)
    else if line.contains '=' then
      match pySplitOn '=' line with
      | [l0, r0] =>
        let left := pyStrip l0
        let right := pyStrip r0
        if right.contains '+' then
          match pySplitOn '+' right with
          | [a0, b0] =>
            let a := pyStrip a0
            let b := pyStrip b0
            match dictLookup vars a with
            | none => .error (.keyError a)
            | some addr_a =>
              match dictLookup vars b with
              | none => .error (.keyError b)
              | some addr_b =>
                compileLoop rest ((left, ptr) :: vars) (ptr - 1)
                  (("    STA ".data ++ pyStr ptr) ::
                   ("    ADD ".data ++ pyStr addr_b) ::
                   ("    LDA ".data ++ pyStr addr_a) :: acc)
          | _ => .error .valueErrorUnpack
        else if pyIsDigit right then
          compileLoop rest ((left, ptr) :: vars) (ptr - 1)
            (("    STA ".data ++ pyStr ptr) ::
             ("    LDA #".data ++ right) :: acc)
        else
          match dictLookup vars right with
          | none => .error (.keyError right)
          | some addr => compileLoop rest ((left, addr) :: vars) ptr acc
      | _ => .error .valueErrorUnpack
    else
      compileLoop rest vars ptr acc

/-- `compile_toy` from sap1_playground.py: split the source on `;`,
translate each statement, append a final `HLT`, and join the emitted
lines with newlines.  The free-slot pointer starts at `0x0E`. -/
def compile_toy (source : List Char) : Except PyExc (List Char) :=
  match compileLoop (toyLines source) [] 0x0E [] with
  | .error e => .error e
  | .ok acc => .ok (List.intercalate ['\n'] (acc.reverse ++ ["    HLT".data]))

/-- Instructions of the playground's fake assembly after parsing. -/
inductive PInstr where
  | LDA (a : Int)
  | LDA_IMM (v : Int)
  | STA (a : Int)
  | ADD (a : Int)
  | OUT
  | HLT
deriving DecidableEq, Repr

/-- The parsing loop in `run`: strip each line, skip empty lines and
lines starting with a dot, dispatch on the first token (unknown heads
are silently skipped), parse operands with `int()` (base 10). -/
def parseAsm : List (List Char) → Except PyExc (List PInstr)
  | [] => .ok []
  | raw :: rest =>
    let line := pyStrip raw
    if line = [] ∨ line.head? = some '.' then parseAsm rest
    else
      match pySplitWs line with
      | [] => parseAsm rest
      | w :: ws =>
        if w = "LDA".data then
          match ws with
          | [] => .error .indexError
          | t :: _ =>
            if t.head? = some '#' then
              match pyInt10 (t.drop 1) with
              | some v => (parseAsm rest).map (fun c => .LDA_IMM v :: c)
              | none => .error (.valueError (t.drop 1))
            else
              match pyInt10 t with
              | some v => (parseAsm rest).map (fun c => .LDA v :: c)
              | none => .error (.valueError t)
        else if w = "STA".data then
          match ws with
          | [] => .error .indexError
          | t :: _ =>
            match pyInt10 t with
            | some v => (parseAsm rest).map (fun c => .STA v :: c)
            | none => .error (.valueError t)
        else if w = "ADD".data then
          match ws with
          | [] => .error .indexError
          | t :: _ =>
            match pyInt10 t with
            | some v => (parseAsm rest).map (fun c => .ADD v :: c)
            | none => .error (.valueError t)
        else if w = "OUT".data then
          (parseAsm rest).map (fun c => .OUT :: c)
        else if w = "HLT".data then
          (parseAsm rest).map (fun c => .HLT :: c)
        else parseAsm rest

/-- Python list subscripting `xs[i]` for a list of length `len`:
non-negative indices below `len`, negative indices counted from the
end, anything else raises `IndexError` (modelled as `none`). -/
def pyIndex (len : Nat) (i : Int) : Option Nat :=
  if 0 ≤ i ∧ i < (len : Int) then some i.toNat
  else if -(len : Int) ≤ i ∧ i < 0 then some (i + (len : Int)).toNat
  else none

/-- `memory[arg]` in the playground VM (Python list read). -/
def pyGet (m : List Int) (i : Int) : Option Int :=
  (pyIndex m.length i).map (fun j => m.getD j 0)

/-- `memory[arg] = v` in the playground VM (Python list write). -/
def pySet (m : List Int) (i : Int) (v : Int) : Option (List Int) :=
  (pyIndex m.length i).map (fun j => m.set j v)

/-- The `while pc < len(code)` execute loop of `run`.  Besides the
output list (or the exception that aborts the loop) it returns the
number of loop iterations executed, so that the claimed step bound can
be stated.  The recursion is on `code.length - pc`: every iteration
either breaks out or moves `pc` up by exactly 1, which is what makes
the loop total with no step bound. -/
def execLoopAux :
    Nat → List PInstr → List Int → Int → Nat → List Int →
    Except PyExc (List Int) × Nat
  | 0, _, _, _, _, output => (.ok output, 0)
  | fuel + 1, code, mem, acc, pc, output =>
    if h : pc < code.length then
      match code.get ⟨pc, h⟩ with
      | .LDA a =>
        match pyGet mem a with
        | some v =>
          let r := execLoopAux fuel code mem v (pc + 1) output
          (r.1, r.2 + 1)
        | none => (.error .indexError, 1)
      | .LDA_IMM v =>
        let r := execLoopAux fuel code mem v (pc + 1) output
        (r.1, r.2 + 1)
      | .STA a =>
        match pySet mem a acc with
        | some m2 =>
          let r := execLoopAux fuel code m2 acc (pc + 1) output
          (r.1, r.2 + 1)
        | none => (.error .indexError, 1)
      | .ADD a =>
        match pyGet mem a with
        | some v =>
          let r := execLoopAux fuel code mem ((acc + v) % 256) (pc + 1) output
          (r.1, r.2 + 1)
        | none => (.error .indexError, 1)
      | .OUT =>
        let r := execLoopAux fuel code mem acc (pc + 1) (output ++ [acc])
        (r.1, r.2 + 1)
      | .HLT => (.ok output, 1)
    else (.ok output, 0)

/-- Entry point for the loop at program counter `pc`: the fuel
`code.length - pc` is exactly the number of loop entries still possible,
since every continuing iteration moves `pc` up by one and the loop
condition is `pc < len(code)` (when the fuel runs out, `pc` has reached
`code.length` and the fuel-0 value coincides with the loop-exit value). -/
def execLoop (code : List PInstr) (mem : List Int) (acc : Int) (pc : Nat)
    (output : List Int) : Except PyExc (List Int) × Nat :=
  execLoopAux (code.length - pc) code mem acc pc output

/-- `run` from sap1_playground.py: parse the assembly text (split on
newlines) and drive the execute loop from a zeroed 16-cell memory;
returns the collected output list. -/
def run (assembly : List Char) : Except PyExc (List Int) :=
  match parseAsm (pySplitOn '\n' assembly) with
  | .error e => .error e
  | .ok code => (execLoop code (List.replicate 16 0) 0 0 []).1

end Playground

/-! ### Helper lemmas -/

theorem u8_nonneg (x : Int) : 0 ≤ u8 x := Int.emod_nonneg x (by norm_num)

theorem u8_lt (x : Int) : u8 x < 256 := Int.emod_lt_of_pos x (by norm_num)

theorem u4_nonneg (x : Int) : 0 ≤ u4 x := Int.emod_nonneg x (by norm_num)

theorem u4_lt (x : Int) : u4 x < 16 := Int.emod_lt_of_pos x (by norm_num)

theorem u8_eq_of_bounds {x : Int} (h0 : 0 ≤ x) (h1 : x < 256) : u8 x = x :=
  Int.emod_eq_of_lt h0 h1

theorem getD_zero_cases : ∀ (m : List Int) (i : Nat), m.getD i 0 ∈ m ∨ m.getD i 0 = 0
  | [], _ => Or.inr rfl
  | x :: _, 0 => Or.inl (List.mem_cons_self x _)
  | _ :: xs, i + 1 =>
    match getD_zero_cases xs i with
    | Or.inl h => Or.inl (List.mem_cons_of_mem _ h)
    | Or.inr h => Or.inr h

theorem memRead_bounds {m : List Int} (hm : ∀ x ∈ m, 0 ≤ x ∧ x < 256) (i : Int) :
    0 ≤ memRead m i ∧ memRead m i < 256 := by
  rcases getD_zero_cases m i.toNat with h | h
  · exact hm _ h
  · unfold memRead
    rw [h]
    norm_num

theorem mem_set_bounds {m : List Int} (hm : ∀ x ∈ m, 0 ≤ x ∧ x < 256)
    {v : Int} (hv : 0 ≤ v ∧ v < 256) (i : Nat) :
    ∀ x ∈ m.set i v, 0 ≤ x ∧ x < 256 := by
  intro x hx
  rcases List.mem_or_eq_of_mem_set hx with h | h
  · exact hm _ h
  · exact h ▸ hv

/-- The bit-width invariant of the claim: `A`, `B`, `OUT`, `IR` are
8-bit, `PC`, `MAR` are 4-bit, every memory cell is 8-bit. -/
def Inv (s : CPU) : Prop :=
  (0 ≤ s.A ∧ s.A < 256) ∧ (0 ≤ s.B ∧ s.B < 256) ∧
  (0 ≤ s.OUT ∧ s.OUT < 256) ∧ (0 ≤ s.IR ∧ s.IR < 256) ∧
  (0 ≤ s.PC ∧ s.PC < 16) ∧ (0 ≤ s.MAR ∧ s.MAR < 16) ∧
  (∀ x ∈ s.memory, 0 ≤ x ∧ x < 256)

instance (s : CPU) : Decidable (Inv s) := by unfold Inv; infer_instance

theorem inv_fetch_cycle {s : CPU} (hs : Inv s) : Inv (fetch_cycle s) := by
  obtain ⟨hA, hB, hO, _, _, _, hm⟩ := hs
  exact ⟨hA, hB, hO, ⟨u8_nonneg _, u8_lt _⟩, ⟨u4_nonneg _, u4_lt _⟩,
    ⟨u4_nonneg _, u4_lt _⟩, hm⟩

theorem inv_exec_LDA {s : CPU} (hs : Inv s) (addr : Int) : Inv (exec_LDA s addr) := by
  obtain ⟨_, hB, hO, hI, hP, _, hm⟩ := hs
  exact ⟨⟨u8_nonneg _, u8_lt _⟩, hB, hO, hI, hP, ⟨u4_nonneg _, u4_lt _⟩, hm⟩

theorem inv_exec_ADD {s : CPU} (hs : Inv s) (addr : Int) : Inv (exec_ADD s addr) := by
  obtain ⟨_, _, hO, hI, hP, _, hm⟩ := hs
  exact ⟨⟨u8_nonneg _, u8_lt _⟩, ⟨u8_nonneg _, u8_lt _⟩, hO, hI, hP,
    ⟨u4_nonneg _, u4_lt _⟩, hm⟩

theorem inv_exec_SUB {s : CPU} (hs : Inv s) (addr : Int) : Inv (exec_SUB s addr) := by
  obtain ⟨_, _, hO, hI, hP, _, hm⟩ := hs
  exact ⟨⟨u8_nonneg _, u8_lt _⟩, ⟨u8_nonneg _, u8_lt _⟩, hO, hI, hP,
    ⟨u4_nonneg _, u4_lt _⟩, hm⟩

theorem inv_exec_STA {s : CPU} (hs : Inv s) (addr : Int) : Inv (exec_STA s addr) := by
  obtain ⟨hA, hB, hO, hI, hP, _, hm⟩ := hs
  exact ⟨hA, hB, hO, hI, hP, ⟨u4_nonneg _, u4_lt _⟩,
    mem_set_bounds hm ⟨u8_nonneg _, u8_lt _⟩ _⟩

theorem inv_exec_OUT {s : CPU} (hs : Inv s) : Inv (exec_OUT s) := by
  obtain ⟨hA, hB, _, hI, hP, hM, hm⟩ := hs
  exact ⟨hA, hB, ⟨u8_nonneg _, u8_lt _⟩, hI, hP, hM, hm⟩

theorem inv_exec_HLT {s : CPU} (hs : Inv s) : Inv (exec_HLT s) := by
  obtain ⟨hA, hB, hO, hI, hP, hM, hm⟩ := hs
  exact ⟨hA, hB, hO, hI, hP, hM, hm⟩

theorem inv_decode_fst {s : CPU} (hs : Inv s) : Inv (decode s).1 := by
  obtain ⟨hA, hB, hO, hI, hP, hM, hm⟩ := hs
  exact ⟨hA, hB, hO, hI, hP, hM, hm⟩

theorem inv_step {s s' : CPU} {t : Option TraceLine} (hs : Inv s)
    (h : step s = .ok s' t) : Inv s' := by
  unfold step at h
  by_cases hh : s.halted
  · simp [hh] at h
  · simp only [hh, if_false, Bool.false_eq_true] at h
    have hf : Inv (decode (fetch_cycle s)).1 := inv_decode_fst (inv_fetch_cycle hs)
    split_ifs at h <;>
      first
        | (injection h with h1 _; exact h1 ▸ inv_exec_LDA hf _)
        | (injection h with h1 _; exact h1 ▸ inv_exec_ADD hf _)
        | (injection h with h1 _; exact h1 ▸ inv_exec_SUB hf _)
        | (injection h with h1 _; exact h1 ▸ inv_exec_STA hf _)
        | (injection h with h1 _; exact h1 ▸ inv_exec_OUT hf)
        | (injection h with h1 _; exact h1 ▸ inv_exec_HLT hf)

theorem inv_reset {s : CPU} (hs : Inv s) : Inv (reset s) := by
  obtain ⟨_, _, _, _, _, _, hm⟩ := hs
  refine ⟨?_, ?_, ?_, ?_, ?_, ?_, ?_⟩ <;> simp [reset]
  exact hm

theorem inv_load_program {s : CPU} (hs : Inv s) (ps : List (Int × Int)) :
    Inv (load_program s ps) := by
  induction ps generalizing s with
  | nil => exact hs
  | cons p ps ih =>
    obtain ⟨hA, hB, hO, hI, hP, hM, hm⟩ := hs
    exact ih ⟨hA, hB, hO, hI, hP, hM,
      mem_set_bounds hm ⟨u8_nonneg _, u8_lt _⟩ _⟩

/-- C2: for every CPU state whose registers and memory cells are within
their declared bit widths, `reset`, `load_program`, and a normally
returning `step` each produce a state within the same bounds. -/
theorem C2_bit_width_preserved (s s' : CPU) (t : Option TraceLine)
    (ps : List (Int × Int)) (hs : Inv s) :
    Inv (reset s) ∧ Inv (load_program s ps) ∧ (step s = .ok s' t → Inv s') :=
  ⟨inv_reset hs, inv_load_program hs ps, fun h => inv_step hs h⟩

/-- The state used to witness C2: a fresh CPU with an `LDA 6`
instruction byte at address 0. -/
def c2s0 : CPU := { CPU.fresh with memory := (List.replicate 16 0).set 0 0x16 }

/-- The state `step c2s0` actually produces. -/
def c2s1 : CPU :=
  { CPU.fresh with memory := (List.replicate 16 0).set 0 0x16,
                   IR := 0x16, PC := 1, MAR := 6 }

/-- The trace line `step c2s0` actually returns. -/
def c2t1 : Option TraceLine := some ⟨1, 0x16, 0, 0, 0, .LDA 6⟩

theorem C2_bit_width_preserved_witness :
    Inv (reset c2s0) ∧ Inv (load_program c2s0 [(0, 300)]) ∧
      (step c2s0 = .ok c2s1 c2t1 → Inv c2s1) :=
  C2_bit_width_preserved c2s0 c2s1 c2t1 [(0, 300)] (by decide)

/-- C6: under the bit-width invariant, `ADD addr` sets the accumulator
to `(A + memory[addr mod 16]) mod 256` and `SUB addr` sets it to
`(A - memory[addr mod 16]) mod 256` (Euclidean mod, so underflow wraps
to a non-negative value); both are total, so overflow and underflow
raise no error. -/
theorem C6_add_sub_wrap (s : CPU) (addr : Int) (hs : Inv s)
    (_ha : 0 ≤ addr ∧ addr < 16) :
    (exec_ADD s addr).A = (s.A + memRead s.memory (u4 addr)) % 256 ∧
    (exec_SUB s addr).A = (s.A - memRead s.memory (u4 addr)) % 256 := by
  have hv := memRead_bounds hs.2.2.2.2.2.2 (u4 addr)
  constructor
  · show u8 (s.A + u8 (memRead s.memory (u4 addr))) = _
    rw [u8_eq_of_bounds hv.1 hv.2]
    rfl
  · show u8 (s.A - u8 (memRead s.memory (u4 addr))) = _
    rw [u8_eq_of_bounds hv.1 hv.2]
    rfl

/-- C6 witness state for the ADD example: `A = 250`, cell 2 holds 10. -/
def c6AddState : CPU :=
  { CPU.fresh with A := 250, memory := (List.replicate 16 0).set 2 10 }

/-- C6 witness state for the SUB example: `A = 3`, cell 2 holds 5. -/
def c6SubState : CPU :=
  { CPU.fresh with A := 3, memory := (List.replicate 16 0).set 2 5 }

theorem C6_add_sub_wrap_witness :
    (exec_ADD c6AddState 2).A = 4 ∧ (exec_SUB c6SubState 2).A = 254 := by
  constructor
  · rw [(C6_add_sub_wrap c6AddState 2 (by decide) (by decide)).1]
    decide
  · rw [(C6_add_sub_wrap c6SubState 2 (by decide) (by decide)).2]
    decide

/-- The instruction byte that a non-halted `step` fetches: the memory
cell at `PC mod 16`, masked to 8 bits (this is the value `_fetch_cycle`
leaves in `IR`). -/
def fetchedIR (s : CPU) : Int := u8 (memRead s.memory (u4 s.PC))

/-- The opcode nibble of an instruction byte, as `_decode` computes it. -/
def opcodeOf (ir : Int) : Int := (ir / 16) % 16

theorem fetch_cycle_IR (s : CPU) : (fetch_cycle s).IR = fetchedIR s := rfl

theorem load_program_halted (s : CPU) (ps : List (Int × Int)) :
    (load_program s ps).halted = s.halted := by
  induction ps generalizing s with
  | nil => rfl
  | cons p ps ih => exact ih _

theorem step_halted_noop (s : CPU) (h : s.halted = true) : step s = .noInstr s := by
  simp [step, h]

theorem run_halted (s : CPU) (n : Nat) (h : s.halted = true) :
    run s n = .ok s [] := by
  cases n <;> simp [run, runAux, h]

theorem step_hlt {s s' : CPU} {t : Option TraceLine} (h0 : s.halted = false)
    (hop : opcodeOf (fetchedIR s) = 0xF) (hstep : step s = .ok s' t) :
    s'.halted = true := by
  have hop' : (decode (fetch_cycle s)).2.1 = 0xF := hop
  unfold step at hstep
  rw [h0] at hstep
  simp only [Bool.false_eq_true, if_false, hop'] at hstep
  norm_num at hstep
  rw [← hstep.1]
  rfl

/-- C5: executing an opcode-`0xF` instruction sets `halted`; on any
halted state, `step` returns the no-instruction-executed signal with
the state unchanged, and `run` returns immediately with the state
unchanged and an empty trace; `load_program` leaves `halted` alone
(so the halted state persists), and `reset` is the operation that
clears `halted` back to false. -/
theorem C5_hlt_terminal (s s' q : CPU) (t : Option TraceLine)
    (ps : List (Int × Int)) (n : Nat) (h0 : s.halted = false)
    (hop : opcodeOf (fetchedIR s) = 0xF) (hstep : step s = .ok s' t)
    (hq : q.halted = true) :
    s'.halted = true ∧ step q = .noInstr q ∧ run q n = .ok q [] ∧
    (load_program q ps).halted = true ∧ (reset q).halted = false :=
  ⟨step_hlt h0 hop hstep, step_halted_noop q hq, run_halted q n hq,
   (load_program_halted q ps).trans hq, rfl⟩

/-- C5 witness state: a fresh CPU with `HLT` (byte `0xF0`) at address 0. -/
def c5s0 : CPU := { CPU.fresh with memory := (List.replicate 16 0).set 0 0xF0 }

/-- The state `step c5s0` actually produces: halted. -/
def c5s1 : CPU :=
  { CPU.fresh with memory := (List.replicate 16 0).set 0 0xF0,
                   IR := 0xF0, PC := 1, halted := true }

/-- The trace line `step c5s0` actually returns. -/
def c5t1 : Option TraceLine := some ⟨1, 0xF0, 0, 0, 0, .HLT⟩

theorem C5_hlt_terminal_witness :
    c5s1.halted = true ∧ step c5s1 = .noInstr c5s1 ∧ run c5s1 3 = .ok c5s1 [] ∧
    (load_program c5s1 [(2, 7)]).halted = true ∧ (reset c5s1).halted = false :=
  C5_hlt_terminal c5s0 c5s1 c5s1 c5t1 [(2, 7)] 3 (by decide) (by decide)
    (by decide) (by decide)

theorem step_unknown_opcode (s : CPU) (h : s.halted = false)
    (hmem : opcodeOf (fetchedIR s) ∉ ([1, 2, 3, 4, 14, 15] : List Int)) :
    step s = .decodeError (opcodeOf (fetchedIR s)) (fetchedIR s)
      (decode (fetch_cycle s)).1 := by
  have hop : (decode (fetch_cycle s)).2.1 = opcodeOf (fetchedIR s) := rfl
  have h1 : opcodeOf (fetchedIR s) ≠ 1 := fun e => hmem (by rw [e]; decide)
  have h2 : opcodeOf (fetchedIR s) ≠ 2 := fun e => hmem (by rw [e]; decide)
  have h3 : opcodeOf (fetchedIR s) ≠ 3 := fun e => hmem (by rw [e]; decide)
  have h4 : opcodeOf (fetchedIR s) ≠ 4 := fun e => hmem (by rw [e]; decide)
  have h5 : opcodeOf (fetchedIR s) ≠ 14 := fun e => hmem (by rw [e]; decide)
  have h6 : opcodeOf (fetchedIR s) ≠ 15 := fun e => hmem (by rw [e]; decide)
  unfold step
  rw [h]
  simp only [Bool.false_eq_true, if_false, hop]
  norm_num [h1, h2, h3, h4, h5, h6]
  rfl

theorem step_known_opcode (s : CPU) (h : s.halted = false)
    (hmem : opcodeOf (fetchedIR s) ∈ ([1, 2, 3, 4, 14, 15] : List Int)) :
    ∃ s' t, step s = .ok s' t := by
  have hop : (decode (fetch_cycle s)).2.1 = opcodeOf (fetchedIR s) := rfl
  unfold step
  rw [h]
  simp only [Bool.false_eq_true, if_false, hop]
  simp only [List.mem_cons, List.not_mem_nil, or_false] at hmem
  rcases hmem with e | e | e | e | e | e <;> rw [e] <;> norm_num

/-- C3: on a non-halted state, `step` raises the unknown-opcode
`ValueError` exactly when the opcode nibble of the fetched byte is not
one of 1, 2, 3, 4, 0xE, 0xF; the raised error carries that opcode
nibble and the full IR byte, and `A`, `B`, `OUT` at the moment of the
raise equal their values before the call. -/
theorem C3_decode_error (s : CPU) (h : s.halted = false) :
    (opcodeOf (fetchedIR s) ∉ ([1, 2, 3, 4, 14, 15] : List Int) ↔
      ∃ es, step s = .decodeError (opcodeOf (fetchedIR s)) (fetchedIR s) es ∧
        es.A = s.A ∧ es.B = s.B ∧ es.OUT = s.OUT) ∧
    (opcodeOf (fetchedIR s) ∈ ([1, 2, 3, 4, 14, 15] : List Int) →
      ∃ s' t, step s = .ok s' t) := by
  constructor
  · constructor
    · intro hmem
      exact ⟨(decode (fetch_cycle s)).1, step_unknown_opcode s h hmem, rfl, rfl, rfl⟩
    · rintro ⟨es, he, -, -, -⟩ hmem
      obtain ⟨s', t, hok⟩ := step_known_opcode s h hmem
      rw [hok] at he
      cases he
  · exact step_known_opcode s h

/-- C3 witness state: a fresh CPU with the raw byte `0x5F` (opcode
nibble 5) at the program-counter location. -/
def c3s0 : CPU := { CPU.fresh with memory := (List.replicate 16 0).set 0 0x5F }

theorem C3_decode_error_witness :
    (opcodeOf (fetchedIR c3s0) ∉ ([1, 2, 3, 4, 14, 15] : List Int) ↔
      ∃ es, step c3s0 = .decodeError (opcodeOf (fetchedIR c3s0)) (fetchedIR c3s0) es ∧
        es.A = c3s0.A ∧ es.B = c3s0.B ∧ es.OUT = c3s0.OUT) ∧
    (opcodeOf (fetchedIR c3s0) ∈ ([1, 2, 3, 4, 14, 15] : List Int) →
      ∃ s' t, step c3s0 = .ok s' t) :=
  C3_decode_error c3s0 (by decide)

/-- Agreement of two CPU states on every component except the two
tracing flags. -/
def coreAgrees (s1 s2 : CPU) : Prop :=
  s1.memory = s2.memory ∧ s1.A = s2.A ∧ s1.B = s2.B ∧ s1.OUT = s2.OUT ∧
  s1.IR = s2.IR ∧ s1.PC = s2.PC ∧ s1.MAR = s2.MAR ∧
  s1.halted = s2.halted ∧ s1.t_state = s2.t_state

instance (s1 s2 : CPU) : Decidable (coreAgrees s1 s2) := by
  unfold coreAgrees; infer_instance

/-- Agreement of two `step` results: same outcome shape, same error
payload if any, and the carried states agree on everything except the
tracing flags (the returned trace line itself is tracing output and is
not compared). -/
def resultAgrees : StepResult → StepResult → Prop
  | .noInstr a, .noInstr b => coreAgrees a b
  | .ok a _, .ok b _ => coreAgrees a b
  | .decodeError op1 ir1 a, .decodeError op2 ir2 b =>
    op1 = op2 ∧ ir1 = ir2 ∧ coreAgrees a b
  | _, _ => False

/-- C9: from two states that agree on memory and all registers but may
differ in `trace_instructions` and `trace_microsteps`, `step` yields
results of the same shape whose states again agree on memory and all
registers: the tracing flags never affect register or memory state. -/
theorem C9_trace_flags_no_state_effect (s1 s2 : CPU) (h : coreAgrees s1 s2) :
    resultAgrees (step s1) (step s2) := by
  obtain ⟨m1, A1, B1, O1, I1, P1, M1, h1, t1, ti1, tm1⟩ := s1
  obtain ⟨m2, A2, B2, O2, I2, P2, M2, h2, t2, ti2, tm2⟩ := s2
  simp only [coreAgrees] at h
  obtain ⟨rfl, rfl, rfl, rfl, rfl, rfl, rfl, rfl, rfl⟩ := h
  simp only [step, fetch_cycle, decode, exec_LDA, exec_ADD, exec_SUB,
    exec_STA, exec_OUT, exec_HLT, mkTrace]
  split_ifs <;> simp [resultAgrees, coreAgrees]

/-- C9 witness partner state: a fresh CPU with both tracing flags
flipped. -/
def c9s2 : CPU :=
  { CPU.fresh with trace_instructions := false, trace_microsteps := true }

theorem C9_trace_flags_no_state_effect_witness :
    resultAgrees (step CPU.fresh) (step c9s2) :=
  C9_trace_flags_no_state_effect CPU.fresh c9s2 (by decide)

instance {ε α : Type} [DecidableEq ε] [DecidableEq α] :
    DecidableEq (Except ε α) := fun x y =>
  match x, y with
  | .ok a, .ok b =>
    if h : a = b then isTrue (by rw [h]) else isFalse (by simp [h])
  | .error a, .error b =>
    if h : a = b then isTrue (by rw [h]) else isFalse (by simp [h])
  | .ok _, .error _ => isFalse (by simp)
  | .error _, .ok _ => isFalse (by simp)

/-- The nine assembly lines of `demo_program_sta`, exactly as they
appear in SAP1.py. -/
def demoLines : List (List Char) :=
  ["        LDA a", "        ADD b", "        STA c", "        LDA c",
   "        OUT", "        HLT", "a:      .byte 5", "b:      .byte 7",
   "c:      .byte 0"].map String.data

/-- The same program with each label declaration on its own line — the
form the assembler's pass 1 actually accepts (a line only counts as a
label declaration when the whole line ends in a colon). -/
def demoLinesSeparated : List (List Char) :=
  ["        LDA a", "        ADD b", "        STA c", "        LDA c",
   "        OUT", "        HLT", "a:", "        .byte 5", "b:",
   "        .byte 7", "c:", "        .byte 0"].map String.data

/-- The machine bytes the demo program is meant to assemble to. -/
def demoBytes : List Int := [0x16, 0x27, 0x48, 0x18, 0xE0, 0xF0, 5, 7, 0]

/-- The byte-loading loop of `demo_program_sta`: write each code byte,
masked to 8 bits, to consecutive memory cells starting at `i`. -/
def loadBytesAt : List Int → Nat → List Int → List Int
  | mem, _, [] => mem
  | mem, i, b :: bs => loadBytesAt (mem.set i (u8 b)) (i + 1) bs

/-- The observation the demo cares about: the final `OUT` register and
`halted` flag of a completed run, or `none` if the run raised. -/
def runOutHalted : RunResult → Option (Int × Bool)
  | .ok f _ => some (f.OUT, f.halted)
  | .decodeError _ _ _ => none

/-- C1: the claim says assembling the nine demo lines succeeds and the
program runs to `OUT = 12`; in fact `assemble` raises
`AsmError("Unknown directive or mnemonic: A:")` on the line
`a:      .byte 5`, because pass 1 treats a line as a label declaration
only when the entire line ends in a colon, and otherwise uppercases the
first token (`a:` becomes `A:`) and fails the mnemonic lookup.  The
demo's intent is correct: with each label on its own line the program
assembles to the expected bytes and, loaded into a fresh CPU, runs to
`OUT = 12` and halts. -/
theorem C1_demo_roundtrip :
    assemble demoLines = .error (.asmError ['A', ':']) ∧
    assemble demoLinesSeparated = .ok demoBytes ∧
    runOutHalted
      (run { CPU.fresh with memory := loadBytesAt (List.replicate 16 0) 0 demoBytes }
        1000) = some (12, true) :=
  ⟨by decide, by decide, by decide⟩

/-- The toy-language source of the compiler scenario. -/
def toySource : List Char := "a=5;b=7;c=a+b;print c;".data

/-- C4: compiling `a=5;b=7;c=a+b;print c;` with `compile_toy` succeeds,
and running the generated assembly on the playground VM produces the
output sequence `[12]`. -/
theorem C4_toy_pipeline :
    (Playground.compile_toy toySource).map Playground.run =
      .ok (.ok [12]) := by decide

/-- C8: whenever the first statement handled by the compiler loop is a
`print` of a variable with no binding in the variable table (the table
holds exactly the variables assigned by earlier statements), the loop
fails with Python's `KeyError` carrying that variable's name — this
dict-lookup failure is the undefined-variable error of the toy
compiler; in particular `print x;` with no prior assignment fails with
`KeyError` naming `x`. -/
theorem C8_print_undefined (stmts : List (List Char))
    (vars : List (List Char × Int)) (ptr : Int) (acc : List (List Char))
    (line v : List Char) (rest : List (List Char))
    (hpre : "print".data.isPrefixOf line = true)
    (hsplit : (pySplitWs line).drop 1 = v :: rest)
    (hvar : dictLookup vars v = none) :
    Playground.compileLoop (line :: stmts) vars ptr acc =
      .error (.keyError v) ∧
    Playground.compile_toy "print x;".data = .error (.keyError ['x']) := by
  constructor
  · unfold Playground.compileLoop
    simp only [hpre, if_true]
    rw [hsplit]
    simp [hvar]
  · decide

theorem C8_print_undefined_witness :
    Playground.compileLoop ["print x".data] [] 14 [] =
      .error (.keyError ['x']) ∧
    Playground.compile_toy "print x;".data = .error (.keyError ['x']) :=
  C8_print_undefined [] [] 14 [] "print x".data ['x'] [] (by decide)
    (by decide) (by decide)

/-- Whether an `assemble` outcome is the assembler's own `AsmError`. -/
def isAsmError : Except AsmException (List Int) → Bool
  | .error (.asmError _) => true
  | _ => false

/-- C7 counterexample: on the single line `LDA qux`, whose operand is
neither a label nor a parseable integer, `assemble` does not fail with
the assembler's own `AsmError`: the uncaught `ValueError` raised by
`int("qux", 0)` inside `parse_addr` propagates instead. -/
theorem C7_counterexample :
    assemble ["LDA qux".data] = .error (.valueError "qux".data) ∧
    isAsmError (assemble ["LDA qux".data]) = false := by decide

/-- C7 amended: for any single-line program whose line carries a known
operand-taking mnemonic and one operand token, if the token is not a
known label (the label table of such a program is empty) and is not
parseable by `int(tok, 0)`, then `assemble` fails — but with the
`ValueError` from the integer parse (carrying the token), not with an
`AsmError`. -/
theorem C7_bad_operand_value_error (line m t : List Char)
    (hclean : pyStrip (line.takeWhile (fun c => c ≠ ';')) = line)
    (hne : line ≠ [])
    (hcolon : line.getLast? ≠ some ':')
    (hsplit : pySplitWs (pyReplaceChar ',' ' ' line) = [m, t])
    (hm : pyUpper m ∈ [("LDA".data : List Char), "ADD".data, "SUB".data, "STA".data])
    (ht : pyIntBase0 t = none) :
    assemble [line] = .error (.valueError t) ∧
    isAsmError (assemble [line]) = false := by
  have h1 : cleanLines [line] = [line] := by
    unfold cleanLines
    simp only [List.foldr]
    rw [hclean]
    simp [hne]
  have h2 : assemble [line] = .error (.valueError t) := by
    unfold assemble
    rw [h1]
    unfold pass1
    rw [if_neg hcolon, hsplit]
    simp only [List.head?]
    simp only [List.mem_cons, List.not_mem_nil, or_false] at hm
    rcases hm with e | e | e | e
    all_goals rw [e]
    all_goals unfold pass1
    all_goals simp [pass2, parse_addr, dictLookup, OPCODES, ht]
  exact ⟨h2, by rw [h2]; rfl⟩

theorem C7_bad_operand_value_error_witness :
    assemble ["LDA qux".data] = .error (.valueError "qux".data) ∧
    isAsmError (assemble ["LDA qux".data]) = false :=
  C7_bad_operand_value_error "LDA qux".data "LDA".data "qux".data
    (by decide) (by decide) (by decide) (by decide) (by decide) (by decide)

theorem execLoopAux_count_le (fuel : Nat) :
    ∀ (code : List Playground.PInstr) (mem : List Int) (acc : Int)
      (pc : Nat) (out : List Int),
      (Playground.execLoopAux fuel code mem acc pc out).2 ≤ fuel := by
  induction fuel with
  | zero => intro code mem acc pc out; exact Nat.le_refl 0
  | succ n ih =>
    intro code mem acc pc out
    unfold Playground.execLoopAux
    split
    · split
      · split
        · exact Nat.succ_le_succ (ih _ _ _ _ _)
        · exact Nat.succ_le_succ (Nat.zero_le n)
      · exact Nat.succ_le_succ (ih _ _ _ _ _)
      · split
        · exact Nat.succ_le_succ (ih _ _ _ _ _)
        · exact Nat.succ_le_succ (Nat.zero_le n)
      · split
        · exact Nat.succ_le_succ (ih _ _ _ _ _)
        · exact Nat.succ_le_succ (Nat.zero_le n)
      · exact Nat.succ_le_succ (ih _ _ _ _ _)
      · exact Nat.succ_le_succ (Nat.zero_le n)
    · exact Nat.zero_le _

/-- C10: the playground VM's execute loop needs no step bound.  Its
iteration count is bounded by `code.length - pc` (so at most one pass
over the parsed instruction list, HLT or not); the loop exits
immediately once the counter reaches the instruction count; a `HLT`
iteration exits after that single iteration; every other executed
instruction either continues at exactly `pc + 1` (with some updated
memory, accumulator and output) or aborts with an exception after that
single iteration; and `run` drives exactly this loop on the parsed
instruction list. -/
theorem C10_playground_run_bounded :
    (∀ (code : List Playground.PInstr) (mem : List Int) (acc : Int)
       (pc : Nat) (out : List Int),
       (Playground.execLoop code mem acc pc out).2 ≤ code.length - pc) ∧
    (∀ (code : List Playground.PInstr) (mem : List Int) (acc : Int)
       (pc : Nat) (out : List Int), code.length ≤ pc →
       Playground.execLoop code mem acc pc out = (.ok out, 0)) ∧
    (∀ (code : List Playground.PInstr) (mem : List Int) (acc : Int)
       (pc : Nat) (out : List Int) (h : pc < code.length),
       code.get ⟨pc, h⟩ = .HLT →
       Playground.execLoop code mem acc pc out = (.ok out, 1)) ∧
    (∀ (code : List Playground.PInstr) (mem : List Int) (acc : Int)
       (pc : Nat) (out : List Int) (h : pc < code.length),
       code.get ⟨pc, h⟩ ≠ .HLT →
       (∃ mem2 acc2 out2,
          Playground.execLoop code mem acc pc out =
            ((Playground.execLoop code mem2 acc2 (pc + 1) out2).1,
             (Playground.execLoop code mem2 acc2 (pc + 1) out2).2 + 1)) ∨
       (∃ e, Playground.execLoop code mem acc pc out = (.error e, 1))) ∧
    (∀ (assembly : List Char) (code : List Playground.PInstr),
       Playground.parseAsm (pySplitOn '\n' assembly) = .ok code →
       Playground.run assembly =
         (Playground.execLoop code (List.replicate 16 0) 0 0 []).1) := by
  refine ⟨?_, ?_, ?_, ?_, ?_⟩
  · intro code mem acc pc out
    exact execLoopAux_count_le _ _ _ _ _ _
  · intro code mem acc pc out hle
    unfold Playground.execLoop
    rw [Nat.sub_eq_zero_of_le hle]
    rfl
  · intro code mem acc pc out h hget
    have hkey : Playground.execLoop code mem acc pc out =
        Playground.execLoopAux ((code.length - (pc + 1)) + 1) code mem acc pc out := by
      unfold Playground.execLoop
      have hf : code.length - pc = (code.length - (pc + 1)) + 1 := by omega
      rw [hf]
    rw [hkey]
    unfold Playground.execLoopAux
    rw [dif_pos h]
    simp only [hget]
  · intro code mem acc pc out h hget
    have hkey : Playground.execLoop code mem acc pc out =
        Playground.execLoopAux ((code.length - (pc + 1)) + 1) code mem acc pc out := by
      unfold Playground.execLoop
      have hf : code.length - pc = (code.length - (pc + 1)) + 1 := by omega
      rw [hf]
    rw [hkey]
    unfold Playground.execLoopAux
    rw [dif_pos h]
    cases hi : code.get ⟨pc, h⟩ with
    | LDA a =>
      cases hv : Playground.pyGet mem a with
      | some v =>
        left
        refine ⟨mem, v, out, ?_⟩
        simp only [hi, hv]
        rfl
      | none =>
        right
        refine ⟨.indexError, ?_⟩
        simp only [hi, hv]
    | LDA_IMM v =>
      left
      refine ⟨mem, v, out, ?_⟩
      simp only [hi]
      rfl
    | STA a =>
      cases hv : Playground.pySet mem a acc with
      | some m2 =>
        left
        refine ⟨m2, acc, out, ?_⟩
        simp only [hi, hv]
        rfl
      | none =>
        right
        refine ⟨.indexError, ?_⟩
        simp only [hi, hv]
    | ADD a =>
      cases hv : Playground.pyGet mem a with
      | some v =>
        left
        refine ⟨mem, (acc + v) % 256, out, ?_⟩
        simp only [hi, hv]
        rfl
      | none =>
        right
        refine ⟨.indexError, ?_⟩
        simp only [hi, hv]
    | OUT =>
      left
      refine ⟨mem, acc, out ++ [acc], ?_⟩
      simp only [hi]
      rfl
    | HLT => exact absurd hi hget
  · intro assembly code hparse
    unfold Playground.run
    rw [hparse]

theorem C10_playground_run_bounded_witness :
    (Playground.execLoop [Playground.PInstr.OUT, Playground.PInstr.OUT]
      (List.replicate 16 0) 0 0 []).2 ≤ 2 ∧
    Playground.execLoop [Playground.PInstr.OUT]
      (List.replicate 16 0) 0 5 [] = (.ok [], 0) ∧
    Playground.execLoop [Playground.PInstr.HLT]
      (List.replicate 16 0) 0 0 [] = (.ok [], 1) ∧
    ((∃ mem2 acc2 out2,
        Playground.execLoop [Playground.PInstr.OUT] (List.replicate 16 0) 0 0 [] =
          ((Playground.execLoop [Playground.PInstr.OUT] mem2 acc2 1 out2).1,
           (Playground.execLoop [Playground.PInstr.OUT] mem2 acc2 1 out2).2 + 1)) ∨
      (∃ e, Playground.execLoop [Playground.PInstr.OUT]
        (List.replicate 16 0) 0 0 [] = (.error e, 1))) ∧
    Playground.run "    OUT".data =
      (Playground.execLoop [Playground.PInstr.OUT]
        (List.replicate 16 0) 0 0 []).1 :=
  ⟨C10_playground_run_bounded.1 _ _ 0 0 _,
   C10_playground_run_bounded.2.1 _ _ 0 5 _ (by decide),
   C10_playground_run_bounded.2.2.1 _ _ 0 0 _ (by decide) (by decide),
   C10_playground_run_bounded.2.2.2.1 _ _ 0 0 _ (by decide) (by decide),
   C10_playground_run_bounded.2.2.2.2 _ _ (by decide)⟩

end SAP1VM
